import Mathlib

set_option linter.unusedVariables false
set_option maxRecDepth 8192

/- Shallow embedding of the memory-locks-worker admission pipeline: the
opaque-ID codec, the two rate limiters, the two bot heuristics and the
public album endpoint handler, together with theorems settling the
specification's claims against them. JS regular expressions from the
source are translated pattern by pattern into executable matchers over
`List Char`. -/

namespace MLW

/-! ## Character and pattern utilities -/

/-- Lowercase every character of a string body (the sources only use
ASCII patterns, where `Char.toLower` agrees with JS lowercasing). -/
def lowerList (l : List Char) : List Char := l.map Char.toLower

/-- Boolean test that `pat` is a prefix of `l`. -/
def startsWithL : List Char → List Char → Bool
  | [], _ => true
  | _ :: _, [] => false
  | p :: ps, c :: cs => p == c && startsWithL ps cs

/-- Boolean test that predicate `p` holds on some suffix of `l`
(including `l` itself and the empty suffix). -/
def anyPos (p : List Char → Bool) : List Char → Bool
  | [] => p []
  | c :: cs => p (c :: cs) || anyPos p cs

/-- Substring test (JS `String.prototype.includes`, or an unanchored
literal regex): some suffix of `l` starts with `pat`. -/
def containsL (pat l : List Char) : Bool := anyPos (startsWithL pat) l

/-- Case-insensitive substring test (`/lit/i.test s`); `pat` is written
lowercase at every use site. -/
def containsCI (pat : List Char) (s : List Char) : Bool :=
  containsL pat (lowerList s)

/-- Drop everything up to and including the first occurrence of `pat`;
`none` when `pat` (taken nonempty) does not occur. -/
def dropAfterFirst (pat : List Char) : List Char → Option (List Char)
  | [] => none
  | c :: cs =>
    if startsWithL pat (c :: cs) then some (List.drop (pat.length - 1) cs)
    else dropAfterFirst pat cs

/-- Matcher for `/p₁.*p₂/`: an occurrence of `p₁` followed (at or after
its end) by an occurrence of `p₂`. Taking the first occurrence of `p₁`
is complete: any later witness also lies after the first one. -/
def containsSeq (p₁ p₂ : List Char) (s : List Char) : Bool :=
  match dropAfterFirst p₁ s with
  | none => false
  | some rest => containsL p₂ rest

/-- Case-insensitive form of `containsSeq` (`/p₁.*p₂/i`). -/
def containsSeqCI (p₁ p₂ : List Char) (s : List Char) : Bool :=
  containsSeq p₁ p₂ (lowerList s)

/-- Prefix matcher for `\d+\.\d+`: one or more digits, a literal dot,
one or more digits. The greedy `\d+` cannot eat the dot, so a
`takeWhile` translation is exact. -/
def versionTail (l : List Char) : Bool :=
  let d₁ := l.takeWhile Char.isDigit
  if d₁.isEmpty then false
  else
    match l.drop d₁.length with
    | '.' :: r => !(r.takeWhile Char.isDigit).isEmpty
    | _ => false

/-! ## Opaque ID codec

The repository delegates token encoding/decoding to the external
`hashids` npm package, whose implementation is not part of the
repository; only its fixed configuration (the production salt, minimum
length 6) and the thin `HashidsService` / `decodeHashId` wrappers are
under `src/`. The codec itself is therefore modelled from the spec
(§4.1): a keyed (salted) alphabet permutation giving a positional code
over an alphanumeric alphabet, deterministic, padded to the minimum
length with alphabet characters, decoding returning no value on any
non-matching input and never raising. -/

/-- Swap the entries at positions `i` and `j` of a character list. -/
def swapL (l : List Char) (i j : Nat) : List Char :=
  (l.set i (l.getD j ' ')).set j (l.getD i ' ')

/-- Modelled from the spec: the salt-driven alphabet permutation
("keyed alphabet permutation"), one salt-determined swap per position
from the top of the list down. -/
def shuffleGo (salt : List Char) : Nat → Nat → Nat → List Char → List Char
  | 0, _, _, l => l
  | i + 1, v, p, l =>
    let v₂ := v % salt.length
    let unit := (salt.getD v₂ ' ').toNat
    let p₂ := p + unit
    let j := (unit + v₂ + p₂) % (i + 1)
    shuffleGo salt i (v₂ + 1) p₂ (swapL l (i + 1) j)

/-- Modelled from the spec: permute `l` by the key `salt`. -/
def consistentShuffle (l salt : List Char) : List Char :=
  if salt.isEmpty then l else shuffleGo salt (l.length - 1) 0 0 l

/-- The process-wide codec salt from `src/src/services/hashids.ts` and
`src/src/index.ts` (`decodeHashId`). -/
def codecSalt : String := "GzFbxMxQkArX1cLMo3tnGmpNxL5lUOROXXum5xfhiPU="

/-- The process-wide minimum token length (6). -/
def codecMinLength : Nat := 6

/-- The 62-character alphanumeric alphabet. -/
def alphabet62 : List Char :=
  "abcdefghijklmnopqrstuvwxyzABCDEFGHIJKLMNOPQRSTUVWXYZ1234567890".data

/-- Modelled from the spec: the salted permutation of the alphabet used
by both `encode` and `decode`. -/
def shuffledAlphabet : List Char := consistentShuffle alphabet62 codecSalt.data

/-- Base-62 digit list of `n`, most significant digit first, by fuelled
structural recursion (`fuel ≥ n` suffices). -/
def toDigitsAux (base : Nat) : Nat → Nat → List Nat
  | 0, _ => []
  | fuel + 1, n => if n = 0 then [] else toDigitsAux base fuel (n / base) ++ [n % base]

/-- Digit list of `n` in the given base, most significant first. -/
def toDigits (base n : Nat) : List Nat := toDigitsAux base n n

/-- Position of the first occurrence of `c` in a list (the list's
length when absent), mirroring JS `indexOf` on the codec alphabet. -/
def idxOf (c : Char) : List Char → Nat
  | [] => 0
  | x :: xs => if x == c then 0 else idxOf c xs + 1

namespace HashidsService

/-- Modelled from the spec: `encode` writes `n` positionally over the
salted alphabet and left-pads with the zero digit of that alphabet up
to the minimum length. Deterministic; length at least `codecMinLength`. -/
def encode (n : Nat) : String :=
  let ds := toDigits 62 n
  let padded := List.replicate (codecMinLength - ds.length) 0 ++ ds
  ⟨padded.map (fun d => shuffledAlphabet.getD d ' ')⟩

/-- Modelled from the spec: `decode` accepts only tokens written over
the codec alphabet whose canonical re-encoding matches exactly (the
best-effort rejection of malformed tokens); it returns a list that is
empty ("no value") or holds the decoded integer, and is total. -/
def decode (hashId : String) : List Nat :=
  let cs := hashId.data
  if cs.all (fun c => shuffledAlphabet.any (fun x => x == c)) then
    let n := cs.foldl (fun a c => a * 62 + idxOf c shuffledAlphabet) 0
    if encode n = hashId then [n] else []
  else []

end HashidsService

/-- Helper from `src/src/index.ts` (lines 243–247): decode a token with
the production salt and minimum length, returning the first decoded
value or `none`. -/
def decodeHashId (hashId : String) : Option Nat :=
  match HashidsService.decode hashId with
  | [] => none
  | n :: _ => some n

/-! ## Rate limiter state -/

/-- An entry of the in-memory rate-limit table: `{ count, resetTime }`
in both `src/src/index.ts` (line 327) and
`src/src/middleware/auth.ts` (`RateLimitEntry`). Times are epoch
milliseconds, embedded as `Nat`. -/
structure RLEntry where
  count : Nat
  resetTime : Nat
deriving DecidableEq, Repr

/-- A rate-limit table keyed by identifier strings. -/
def RLMap : Type := String → Option RLEntry

/-- Point update of a rate-limit table. -/
def RLMap.set (m : RLMap) (k : String) (v : RLEntry) : RLMap :=
  fun q => if q == k then some v else m q

namespace RateLimitService

/-- One call of `RateLimitService.isRateLimited` from
`src/src/middleware/auth.ts` (lines 166–197), restricted to the entry
of the key being asked about: returns the limited flag and the key's
new entry. The window-expiry comparison is `now >= entry.resetTime`.
The in-function periodic cleanup (`performCleanup`) only deletes
entries with `now >= resetTime`; a deleted entry takes the no-entry
branch, which acts exactly like the expired-entry branch, so the sweep
is behaviour-preserving per key and not modelled separately. -/
def isRateLimited (limit windowMs now : Nat) (entry : Option RLEntry) :
    Bool × Option RLEntry :=
  match entry with
  | none => (false, some ⟨1, now + windowMs⟩)
  | some e =>
    if e.resetTime ≤ now then (false, some ⟨1, now + windowMs⟩)
    else if limit ≤ e.count then (true, some e)
    else (false, some ⟨e.count + 1, e.resetTime⟩)

/-- Run a sequence of `isRateLimited` calls for one key at the given
times, collecting each call's limited flag and the final entry. -/
def run (limit windowMs : Nat) : List Nat → Option RLEntry → List Bool × Option RLEntry
  | [], st => ([], st)
  | t :: ts, st =>
    let r := isRateLimited limit windowMs t st
    let rest := run limit windowMs ts r.2
    (r.1 :: rest.1, rest.2)

end RateLimitService

/-! ## Inline helpers of `src/src/index.ts` -/

namespace IndexTs

/-- Input validation from `src/src/index.ts` (lines 123–126): the token
must match `^[a-zA-Z0-9]{6,20}$`. -/
def validateHashId (hashId : String) : Bool :=
  decide (6 ≤ hashId.length) && decide (hashId.length ≤ 20) &&
    hashId.data.all Char.isAlphanum

/-- Input validation from `src/src/index.ts` (lines 128–131): a decoded
lock id must be a positive integer at most `2^31 − 1`. Decoded hashids
values are non-negative integers, embedded as `Nat`. -/
def validateLockId (lockId : Nat) : Bool :=
  decide (0 < lockId) && decide (lockId ≤ 2147483647)

/-- The header record the album handler passes to `isBot`
(`src/src/index.ts` lines 586–591); absent headers default to `""`. -/
structure Headers where
  acceptLanguage : String
  secFetchSite : String
  secFetchMode : String
  xRequestedWith : String
deriving DecidableEq, Repr

/-- JS truthiness of the checks in `isBot` on header-record fields:
a present field is an arbitrary string, and `''` is falsy. -/
def strTruthy (s : String) : Bool := !s.isEmpty

/-- The first allow check of `isBot` (`src/src/index.ts` line 253):
`/\.NET/i`, `/HttpClient/i` or `/MAUI/i` matches the user agent. -/
def allowedNet (ua : List Char) : Bool :=
  containsCI ".net".data ua || containsCI "httpclient".data ua ||
    containsCI "maui".data ua

/-- The mobile allow condition of `isBot` (`src/src/index.ts` line 258):
`/Mobile/i` together with `/iOS/i` or `/Android/i`. -/
def mobileAllowed (ua : List Char) : Bool :=
  containsCI "mobile".data ua &&
    (containsCI "ios".data ua || containsCI "android".data ua)

/-- The fake-mobile exclusion of `isBot` (`src/src/index.ts` line 260):
`/bot|crawler|spider|scraper/i`. -/
def mobileBotish (ua : List Char) : Bool :=
  containsCI "bot".data ua || containsCI "crawler".data ua ||
    containsCI "spider".data ua || containsCI "scraper".data ua

/-- The case-insensitive entries of the `botPatterns` array of `isBot`
(`src/src/index.ts` lines 266–286); each is a literal substring
matched with `/i`. -/
def botSubstrings : List String :=
  ["openai", "gpt", "google-extended", "ccbot", "claude-web", "anthropic",
   "bard", "chatgpt",
   "bot", "crawler", "spider", "scraper", "fetch", "monitor",
   "googlebot", "bingbot", "slurp", "facebookexternalhit", "twitterbot",
   "linkedinbot", "whatsapp", "telegrambot", "applebot", "baiduspider",
   "yandexbot",
   "nmap", "masscan", "zmap", "nuclei", "sqlmap", "nikto", "nessus",
   "python-requests", "python-urllib", "go-http-client", "apache-httpclient",
   "libwww-perl", "php", "ruby", "nodejs", "axios",
   "wget", "curl", "httpie", "postman", "insomnia",
   "headlesschrome", "phantomjs", "slimerjs", "selenium", "playwright",
   "puppeteer",
   "test", "scan", "probe", "check"]

/-- The `botPatterns.some(...)` test of `isBot`: one of the literal
substrings occurs, or the user agent is exactly `Mozilla/5.0`
(the one anchored, case-sensitive pattern `/^Mozilla\/5\.0$/`). -/
def uaBotPatterns (ua : List Char) : Bool :=
  botSubstrings.any (fun p => containsCI p.data ua) || ua == "Mozilla/5.0".data

/-- The referer check of `isBot` (`src/src/index.ts` line 299): a
present, non-empty referer that contains neither
`album.memorylocks.com` nor `localhost` (case-sensitive `includes`). -/
def refererSuspicious : Option String → Bool
  | none => false
  | some r =>
    !r.isEmpty && !containsL "album.memorylocks.com".data r.data &&
      !containsL "localhost".data r.data

/-- Bot detection from `src/src/index.ts` (lines 251–324). The ordered
checks: mobile-app allow patterns, mobile-browser allowance, the
empty/short user-agent rejection, the deny patterns, the referer check,
then the header check (missing `accept-language` and `sec-fetch-site`). -/
def isBot (userAgent : String) (referer : Option String)
    (headers : Option Headers) : Bool :=
  let ua := userAgent.data
  if strTruthy userAgent && allowedNet ua then false
  else if strTruthy userAgent && mobileAllowed ua && !mobileBotish ua then false
  else if userAgent.isEmpty || decide (userAgent.length < 10) then true
  else if uaBotPatterns ua then true
  else if refererSuspicious referer then true
  else
    match headers with
    | some h =>
      if !strTruthy h.acceptLanguage && !strTruthy h.secFetchSite then true
      else false
    | none => false

/-- Rate limiter from `src/src/index.ts` (lines 329–346), acting on the
whole `rateLimitMap`. Note the expiry comparison here is the strict
`now > current.resetTime`, unlike the `>=` of `RateLimitService`. -/
def isRateLimited (now : Nat) (ip : String) (maxRequests windowMinutes : Nat)
    (m : RLMap) : Bool × RLMap :=
  let windowMs := windowMinutes * 60 * 1000
  match m ip with
  | none => (false, m.set ip ⟨1, now + windowMs⟩)
  | some current =>
    if current.resetTime < now then (false, m.set ip ⟨1, now + windowMs⟩)
    else if maxRequests ≤ current.count then (true, m)
    else (false, m.set ip ⟨current.count + 1, current.resetTime⟩)

/-- The externally visible decision of the album endpoint; each
constructor is one early return of the handler. -/
inductive Decision where
  | invalidFormat
  | accessDenied
  | tooManyRequests
  | invalidLockId
  | lockNotFound
  | ok (lockId : Nat)
deriving DecidableEq, Repr

/-- The `referer || null` normalisation the handler applies before
calling `isBot` (`src/src/index.ts` line 594): an empty referer header
becomes `null`. -/
def refOrNull : Option String → Option String
  | some r => if r.isEmpty then none else some r
  | none => none

/-- The admission pipeline of `GET /api/album/:hashId` from
`src/src/index.ts` (lines 572–656), as a pure function of the request
data, the current time, the rate-limit table and the database (the
record-existence predicate `db`). Returns the decision and the updated
rate-limit table. The media-shaping of the success branch is not
decision-relevant and is summarised by `Decision.ok` carrying the
decoded lock id. -/
def albumGet (hashId userAgent : String) (referer : Option String)
    (headers : Headers) (clientIP : String) (now : Nat) (m : RLMap)
    (db : Nat → Bool) : Decision × RLMap :=
  if !validateHashId hashId then (.invalidFormat, m)
  else
    if isBot userAgent (refOrNull referer) (some headers) then (.accessDenied, m)
    else
      let rl := isRateLimited now clientIP 10 1 m
      if rl.1 then (.tooManyRequests, rl.2)
      else
        match decodeHashId hashId with
        | none => (.invalidLockId, rl.2)
        | some lockId =>
          if !validateLockId lockId then (.invalidLockId, rl.2)
          else if db lockId then (.ok lockId, rl.2)
          else (.lockNotFound, rl.2)

end IndexTs

/-! ## Bot protection middleware

Embedding of `src/src/middleware/botProtection.ts`. Only the fields of
`RequestHeaders` that the decision functions read are modelled. -/

namespace BotProtectionService

/-- The header fields `isBot` and `validateDesktopBrowser` read, each
`string | undefined`; a present-but-empty string is falsy in every
check, captured by `truthy`. -/
structure RequestHeaders where
  acceptLanguage : Option String
  secFetchSite : Option String
  secFetchMode : Option String
  secFetchDest : Option String
deriving DecidableEq, Repr

/-- An empty header record (all fields undefined). -/
def RequestHeaders.empty : RequestHeaders := ⟨none, none, none, none⟩

/-- JS truthiness of an optional header value. -/
def truthy : Option String → Bool
  | none => false
  | some s => !s.isEmpty

/-- Shorthand for a case-insensitive literal pattern test. -/
def ci (pat : String) (ua : List Char) : Bool := containsCI pat.data ua

/-- Shorthand for a case-insensitive `/a.*b/` pattern test. -/
def seqci (a b : String) (ua : List Char) : Bool :=
  containsSeqCI a.data b.data ua

/-- Matcher for `/tool.*\d+/i`: `tool` followed later by a digit. -/
def toolDigits (ua : List Char) : Bool :=
  match dropAfterFirst "tool".data (lowerList ua) with
  | none => false
  | some rest => rest.any Char.isDigit

/-- Matcher for the anchored, case-sensitive `/^[a-z]+\/\d+\.\d+$/`
("simple version patterns like tool/1.0"). -/
def simpleVersion (ua : List Char) : Bool :=
  let letters := ua.takeWhile (fun c => decide ('a' ≤ c) && decide (c ≤ 'z'))
  if letters.isEmpty then false
  else
    match ua.drop letters.length with
    | '/' :: r =>
      let d₁ := r.takeWhile Char.isDigit
      if d₁.isEmpty then false
      else
        match r.drop d₁.length with
        | '.' :: r₂ =>
          let d₂ := r₂.takeWhile Char.isDigit
          !d₂.isEmpty && (r₂.drop d₂.length).isEmpty
        | _ => false
    | _ => false

/-- Matcher for an unanchored case-sensitive `/pre\d+\.\d+/` with a
literal prefix `pre` (used for `CFNetwork\/` and `Dalvik\/`). -/
def containsVersioned (pre : String) (ua : List Char) : Bool :=
  anyPos (fun t => startsWithL pre.data t && versionTail (t.drop pre.length)) ua

/-- The `BOT_PATTERNS` deny list (`botProtection.ts` lines 32–65),
pattern by pattern. All entries carry `/i` except the final
`simpleVersion` pattern. -/
def botPattern (ua : List Char) : Bool :=
  (ci "openai" ua || ci "gpt" ua || ci "claude" ua || ci "anthropic" ua ||
    ci "chatgpt" ua || ci "bard" ua || ci "gemini" ua) ||
  (ci "llm" ua || seqci "language" "model" ua || seqci "ai" "assistant" ua) ||
  (ci "googlebot" ua || ci "bingbot" ua || ci "slurp" ua ||
    ci "duckduckbot" ua || ci "baiduspider" ua || ci "yandexbot" ua) ||
  (ci "facebookexternalhit" ua || ci "twitterbot" ua || ci "linkedinbot" ua ||
    ci "whatsapp" ua) ||
  (ci "crawler" ua || ci "spider" ua || ci "scraper" ua || ci "bot" ua ||
    ci "indexer" ua) ||
  (ci "nmap" ua || ci "sqlmap" ua || ci "nikto" ua || ci "dirb" ua ||
    ci "gobuster" ua || ci "ffuf" ua || ci "burp" ua) ||
  (ci "nuclei" ua || ci "katana" ua || ci "subfinder" ua || ci "httpx" ua ||
    ci "masscan" ua) ||
  (ci "nessus" ua || ci "qualys" ua || ci "rapid7" ua ||
    seqci "vulnerability" "scanner" ua) ||
  (ci "curl" ua || ci "wget" ua || seqci "python" "requests" ua ||
    ci "urllib" ua || ci "httpie" ua) ||
  (ci "postman" ua || ci "insomnia" ua || ci "paw" ua || ci "restclient" ua) ||
  (ci "selenium" ua || ci "puppeteer" ua || ci "playwright" ua ||
    ci "headless" ua) ||
  (ci "phantom" ua || ci "splash" ua || seqci "chrome" "headless" ua ||
    seqci "firefox" "headless" ua) ||
  (ci "scrapy" ua || seqci "beautiful" "soup" ua || ci "mechanize" ua) ||
  (ci "pingdom" ua || ci "uptimerobot" ua || ci "statuspage" ua ||
    seqci "hetrix" "tools" ua) ||
  (seqci "site" "monitor" ua || seqci "uptime" "monitor" ua ||
    ci "alertsite" ua) ||
  (ci "discordbot" ua || ci "telegrambot" ua || ci "slackbot" ua ||
    ci "msteams" ua) ||
  (seqci "preview" "generator" ua || seqci "link" "preview" ua ||
    seqci "meta" "scraper" ua) ||
  (ci "automated" ua || ci "script" ua || toolDigits ua) ||
  simpleVersion ua

/-- The `MOBILE_PATTERNS` list (`botProtection.ts` lines 67–76), all
`/a.*b/i` patterns. -/
def mobilePattern (ua : List Char) : Bool :=
  seqci "mobile" "safari" ua || seqci "android" "chrome" ua ||
  seqci "iphone" "safari" ua || seqci "ipad" "safari" ua ||
  seqci "mobile" "firefox" ua || seqci "opera" "mobile" ua ||
  seqci "samsung" "browser" ua || seqci "edge" "mobile" ua

/-- The `ALLOWED_MOBILE_APPS` allow list (`botProtection.ts` lines
78–88): `/^\.NET\/\d+\.\d+/`, `/.NET.*HttpClient/` (both
case-sensitive; the second begins with a wildcard dot, so a `NET`
occurrence needs one preceding character), `/Xamarin/i`, `/MAUI/i`,
`/CFNetwork\/\d+\.\d+/` and `/Dalvik\/\d+\.\d+/`. -/
def allowedMobileApp (ua : List Char) : Bool :=
  (startsWithL ".NET/".data ua && versionTail (ua.drop 5)) ||
  (match ua with
   | [] => false
   | _ :: rest => containsSeq "NET".data "HttpClient".data rest) ||
  ci "xamarin" ua || ci "maui" ua ||
  containsVersioned "CFNetwork/" ua ||
  containsVersioned "Dalvik/" ua

/-- The `desktopPatterns` list of `isDesktopBrowser`
(`botProtection.ts` lines 123–139), all `/a.*b/i` patterns. -/
def isDesktopBrowser (ua : List Char) : Bool :=
  seqci "windows" "chrome" ua || seqci "windows" "firefox" ua ||
  seqci "windows" "edge" ua || seqci "windows" "safari" ua ||
  seqci "macintosh" "chrome" ua || seqci "macintosh" "firefox" ua ||
  seqci "macintosh" "safari" ua || seqci "x11" "chrome" ua ||
  seqci "x11" "firefox" ua || seqci "linux" "chrome" ua ||
  seqci "linux" "firefox" ua

/-- URL hostname extraction (`parseURL`, `botProtection.ts` lines
8–16): `^https?:\/\/([^\/]+)` — an `http://` or `https://` scheme
followed by at least one non-slash character. -/
def parseURL (url : String) : Option String :=
  let host := fun (t : List Char) =>
    let h := t.takeWhile (fun c => !(c == '/'))
    if h.isEmpty then none else some (String.mk h)
  if startsWithL "https://".data url.data then host (url.data.drop 8)
  else if startsWithL "http://".data url.data then host (url.data.drop 7)
  else none

/-- Suffix test used by the referer allow list. -/
def endsWithL (suf l : List Char) : Bool :=
  startsWithL suf.reverse l.reverse

/-- The owned-domain allow list (`isAllowedReferer`,
`botProtection.ts` lines 168–180): the hostname equals an allowed
domain or ends in `.` plus one. -/
def isAllowedReferer (hostname : String) : Bool :=
  ["memorylocks.com", "album.memorylocks.com", "api.memorylocks.com",
   "localhost", "127.0.0.1"].any
    (fun d => hostname == d || endsWithL ('.' :: d.data) hostname.data)

/-- Secondary desktop validation (`validateDesktopBrowser`,
`botProtection.ts` lines 141–162); `true` means "likely a bot". -/
def validateDesktopBrowser (headers : RequestHeaders)
    (referer : Option String) : Bool :=
  if !truthy headers.acceptLanguage then true
  else if !(truthy headers.secFetchSite || truthy headers.secFetchMode ||
      truthy headers.secFetchDest) then true
  else
    match referer with
    | some r =>
      if !r.isEmpty then
        match parseURL r with
        | some h => if !isAllowedReferer h then true else false
        | none => false
      else false
    | none => false

/-- Bot classification (`BotProtectionService.isBot`,
`botProtection.ts` lines 90–121): short user agent, then the mobile-app
allow list, the deny list, the mobile-browser allowance, the desktop
validation, and the fail-closed default. -/
def isBot (userAgent : String) (referer : Option String)
    (headers : RequestHeaders) : Bool :=
  if userAgent.isEmpty || decide (userAgent.length < 10) then true
  else if allowedMobileApp userAgent.data then false
  else if botPattern userAgent.data then true
  else if mobilePattern userAgent.data then false
  else if isDesktopBrowser userAgent.data then
    validateDesktopBrowser headers referer
  else true

end BotProtectionService

/-! ## Codec lemmas -/

/-- The salted alphabet is a 62-character list. -/
lemma shuffledAlphabet_length : shuffledAlphabet.length = 62 := by decide

/-- The salted alphabet has no duplicate characters (a permutation of
the alphanumeric alphabet). -/
lemma shuffledAlphabet_nodup : shuffledAlphabet.Nodup := by decide

/-- Every digit produced by `toDigitsAux` is below the base. -/
lemma toDigitsAux_lt (base : Nat) (hb : 0 < base) :
    ∀ fuel n, ∀ d ∈ toDigitsAux base fuel n, d < base := by
  intro fuel
  induction fuel with
  | zero => intro n d hd; simp [toDigitsAux] at hd
  | succ f ih =>
    intro n d hd
    by_cases h0 : n = 0
    · simp [toDigitsAux, h0] at hd
    · rw [toDigitsAux, if_neg h0] at hd
      rcases List.mem_append.mp hd with hd | hd
      · exact ih _ _ hd
      · rcases List.mem_singleton.mp hd with rfl
        exact Nat.mod_lt _ hb

/-- Positional evaluation undoes `toDigitsAux` once the fuel covers
the input. -/
lemma foldl_toDigitsAux :
    ∀ fuel n, n ≤ fuel →
      List.foldl (fun a d => a * 62 + d) 0 (toDigitsAux 62 fuel n) = n := by
  intro fuel
  induction fuel with
  | zero => intro n h; interval_cases n; simp [toDigitsAux]
  | succ f ih =>
    intro n h
    by_cases h0 : n = 0
    · simp [toDigitsAux, h0]
    · rw [toDigitsAux, if_neg h0, List.foldl_append]
      have hdiv : n / 62 ≤ f := by
        have : n / 62 < n := Nat.div_lt_self (Nat.pos_of_ne_zero h0) (by norm_num)
        omega
      rw [ih (n / 62) hdiv]
      simp only [List.foldl_cons, List.foldl_nil]
      omega

/-- An in-range `getD` is a member of the list. -/
lemma getD_mem_of_lt (l : List Char) (i : Nat) (hi : i < l.length) :
    l.getD i ' ' ∈ l := by
  induction l generalizing i with
  | nil => simp at hi
  | cons x xs ih =>
    cases i with
    | zero => simp
    | succ j =>
      have hj : j < xs.length := by simpa using hi
      simpa using Or.inr (ih j hj)

/-- On a duplicate-free list, `idxOf` inverts in-range `getD`. -/
lemma idxOf_getD (l : List Char) (hnd : l.Nodup) :
    ∀ i, i < l.length → idxOf (l.getD i ' ') l = i := by
  induction l with
  | nil => intro i hi; simp at hi
  | cons x xs ih =>
    intro i hi
    cases i with
    | zero => simp [idxOf]
    | succ j =>
      have hj : j < xs.length := by simpa using hi
      have hmem : xs.getD j ' ' ∈ xs := getD_mem_of_lt xs j hj
      have hx : ¬ (x == xs.getD j ' ') = true := by
        intro hbe
        exact (List.nodup_cons.mp hnd).1 (beq_iff_eq.mp hbe ▸ hmem)
      rw [List.getD_cons_succ, idxOf, if_neg hx,
        ih (List.nodup_cons.mp hnd).2 j hj]

/-- Positional evaluation through the alphabet lookup agrees with plain
base-62 evaluation on digit lists below 62. -/
lemma foldl_alphabet (l : List Nat) (hl : ∀ d ∈ l, d < 62) :
    ∀ a, List.foldl
        (fun a c => a * 62 + idxOf c shuffledAlphabet) a
        (l.map (fun d => shuffledAlphabet.getD d ' ')) =
      List.foldl (fun a d => a * 62 + d) a l := by
  induction l with
  | nil => intro a; rfl
  | cons d ds ih =>
    intro a
    have hd : d < 62 := hl d (List.mem_cons_self d ds)
    have hidx : idxOf (shuffledAlphabet.getD d ' ') shuffledAlphabet = d :=
      idxOf_getD shuffledAlphabet shuffledAlphabet_nodup d
        (by rw [shuffledAlphabet_length]; exact hd)
    simp only [List.map_cons, List.foldl_cons, hidx]
    exact ih (fun e he => hl e (List.mem_cons_of_mem _ he)) _

/-- Base-62 evaluation ignores leading zero digits. -/
lemma foldl_replicate_zero :
    ∀ k, List.foldl (fun a d => a * 62 + d) 0 (List.replicate k 0) = 0 := by
  intro k
  induction k with
  | zero => rfl
  | succ j ih => simpa [List.replicate_succ] using ih

/-- Every digit of an encoded token is below 62. -/
lemma padded_lt (n : Nat) :
    ∀ d ∈ List.replicate (codecMinLength - (toDigits 62 n).length) 0 ++
        toDigits 62 n, d < 62 := by
  intro d hd
  rcases List.mem_append.mp hd with hd | hd
  · rcases List.eq_of_mem_replicate hd with rfl; norm_num
  · exact toDigitsAux_lt 62 (by norm_num) n n d hd

/-- The modelled codec round-trips every natural number. -/
lemma decode_encode_eq (n : Nat) :
    HashidsService.decode (HashidsService.encode n) = [n] := by
  have hpad := padded_lt n
  set padded :=
    List.replicate (codecMinLength - (toDigits 62 n).length) 0 ++
      toDigits 62 n with hpadded
  have hdata : (HashidsService.encode n).data =
      padded.map (fun d => shuffledAlphabet.getD d ' ') := rfl
  have hall : (HashidsService.encode n).data.all
      (fun c => shuffledAlphabet.any (fun x => x == c)) = true := by
    rw [hdata, List.all_eq_true]
    intro c hc
    rcases List.mem_map.mp hc with ⟨d, hd, rfl⟩
    rw [List.any_eq_true]
    exact ⟨_, getD_mem_of_lt _ d (by rw [shuffledAlphabet_length]; exact hpad d hd),
      beq_self_eq_true _⟩
  have hval : (HashidsService.encode n).data.foldl
      (fun a c => a * 62 + idxOf c shuffledAlphabet) 0 = n := by
    rw [hdata, foldl_alphabet padded hpad 0, hpadded, List.foldl_append,
      foldl_replicate_zero]
    exact foldl_toDigitsAux n n le_rfl
  rw [HashidsService.decode]
  simp only [hall, if_true, hval, if_pos rfl]

/-! ## Rate limiter lemmas -/

/-- Equation lemma: a call inside an active window with budget left
admits and counts up. -/
lemma isRateLimited_active (L W t c R : Nat) (ht : t < R) (hc : c < L) :
    RateLimitService.isRateLimited L W t (some ⟨c, R⟩) = (false, some ⟨c + 1, R⟩) := by
  rw [RateLimitService.isRateLimited]
  rw [if_neg (by omega : ¬ R ≤ t), if_neg (by omega : ¬ L ≤ c)]

/-- Equation lemma: a call inside an active window with the budget
used up is rejected and leaves the entry alone. -/
lemma isRateLimited_limited (L W t c R : Nat) (ht : t < R) (hc : L ≤ c) :
    RateLimitService.isRateLimited L W t (some ⟨c, R⟩) = (true, some ⟨c, R⟩) := by
  rw [RateLimitService.isRateLimited, if_neg (by omega : ¬ R ≤ t), if_pos hc]

/-- Unfolding lemma for `run` on a cons cell. -/
lemma run_cons (L W t : Nat) (ts : List Nat) (st : Option RLEntry) :
    RateLimitService.run L W (t :: ts) st =
      ((RateLimitService.isRateLimited L W t st).1 ::
        (RateLimitService.run L W ts (RateLimitService.isRateLimited L W t st).2).1,
       (RateLimitService.run L W ts (RateLimitService.isRateLimited L W t st).2).2) := rfl

/-- Inside an active window (`t < R`), a run whose budget is not yet
exhausted admits every call and just counts them up. -/
lemma run_fill (L W R : Nat) :
    ∀ (ts : List Nat) (c : Nat), c + ts.length ≤ L → (∀ t ∈ ts, t < R) →
      RateLimitService.run L W ts (some ⟨c, R⟩) =
        (List.replicate ts.length false, some ⟨c + ts.length, R⟩) := by
  intro ts
  induction ts with
  | nil => intro c _ _; rfl
  | cons t ts ih =>
    intro c hc hw
    have hlen : (t :: ts).length = ts.length + 1 := rfl
    have ht : t < R := hw t (List.mem_cons_self t ts)
    rw [run_cons, isRateLimited_active L W t c R ht (by omega)]
    have hrec := ih (c + 1) (by omega) (fun u hu => hw u (List.mem_cons_of_mem _ hu))
    simp only [hrec, hlen, List.replicate_succ]
    have hc1 : c + 1 + ts.length = c + (ts.length + 1) := by omega
    rw [hc1]

/-- Inside an active window, a run of `L + 1 - c` calls starting at
count `c ≤ L` admits all but the last call and rejects that one. -/
lemma run_exact (L W R : Nat) :
    ∀ (ts : List Nat) (c : Nat), c ≤ L → c + ts.length = L + 1 →
      (∀ t ∈ ts, t < R) →
      (RateLimitService.run L W ts (some ⟨c, R⟩)).1 =
        List.replicate (L - c) false ++ [true] := by
  intro ts
  induction ts with
  | nil => intro c hc hlen _; simp at hlen; omega
  | cons t ts ih =>
    intro c hc hlen hw
    have hlc : (t :: ts).length = ts.length + 1 := rfl
    have ht : t < R := hw t (List.mem_cons_self t ts)
    by_cases hcL : c = L
    · have hts : ts = [] := List.eq_nil_of_length_eq_zero (by omega)
      subst hts
      rw [run_cons, isRateLimited_limited L W t c R ht (by omega)]
      have hzero : L - c = 0 := by omega
      simp [RateLimitService.run, hzero]
    · have hclt : c < L := lt_of_le_of_ne hc hcL
      rw [run_cons, isRateLimited_active L W t c R ht hclt]
      have hrec := ih (c + 1) (by omega) (by omega)
        (fun u hu => hw u (List.mem_cons_of_mem _ hu))
      simp only [hrec]
      have hrep : L - c = (L - (c + 1)) + 1 := by omega
      rw [hrep, List.replicate_succ, List.cons_append]

/-- One rate-limiter call keeps the count of the key's entry at or
below the limit. -/
lemma isRateLimited_inv (L W t : Nat) (hL : 1 ≤ L) (st : Option RLEntry)
    (hst : ∀ e, st = some e → e.count ≤ L) :
    ∀ e, (RateLimitService.isRateLimited L W t st).2 = some e → e.count ≤ L := by
  intro e he
  cases st with
  | none =>
    rw [RateLimitService.isRateLimited] at he
    cases he; exact hL
  | some cur =>
    have hcur : cur.count ≤ L := hst cur rfl
    rw [RateLimitService.isRateLimited] at he
    by_cases hexp : cur.resetTime ≤ t
    · rw [if_pos hexp] at he; cases he; exact hL
    · rw [if_neg hexp] at he
      by_cases hlim : L ≤ cur.count
      · rw [if_pos hlim] at he; cases he; exact hcur
      · rw [if_neg hlim] at he; cases he
        simp only []
        omega

/-- A whole run keeps the count of the key's entry at or below the
limit. -/
lemma run_inv (L W : Nat) (hL : 1 ≤ L) :
    ∀ (ts : List Nat) (st : Option RLEntry),
      (∀ e, st = some e → e.count ≤ L) →
      ∀ e, (RateLimitService.run L W ts st).2 = some e → e.count ≤ L := by
  intro ts
  induction ts with
  | nil => intro st hst e he; exact hst e he
  | cons t ts ih =>
    intro st hst e he
    rw [RateLimitService.run] at he
    exact ih _ (isRateLimited_inv L W t hL st hst) e he

/-! ## Claims about the codec -/

/-- C2: for every positive integer n up to 2^31 − 1, decoding the token
produced by encoding n with the production salt and minimum length
yields n back, both through `HashidsService.decode` and through the
endpoint helper `decodeHashId`. -/
theorem C2_decode_encode_roundtrip (n : Nat) (h₁ : 1 ≤ n) (h₂ : n ≤ 2 ^ 31 - 1) :
    HashidsService.decode (HashidsService.encode n) = [n] ∧
    decodeHashId (HashidsService.encode n) = some n := by
  refine ⟨decode_encode_eq n, ?_⟩
  rw [decodeHashId, decode_encode_eq n]

/-- Witness for C2 at n = 123. -/
theorem C2_decode_encode_roundtrip_witness :
    1 ≤ 123 ∧ 123 ≤ 2 ^ 31 - 1 ∧
      (HashidsService.decode (HashidsService.encode 123) = [123] ∧
        decodeHashId (HashidsService.encode 123) = some 123) :=
  ⟨by norm_num, by norm_num,
    C2_decode_encode_roundtrip 123 (by norm_num) (by norm_num)⟩

/-- C8: the codec's decode is total — every input string yields either
the empty ("no value") result or a single decoded integer, with no
exception path — and every token containing a character outside the
codec alphabet yields the no-value result (`decodeHashId` then gives
`none`). -/
theorem C8_decode_total :
    (∀ s : String, HashidsService.decode s = [] ∨
        ∃ n, HashidsService.decode s = [n]) ∧
    (∀ s : String,
        (∃ c ∈ s.data, ¬ (shuffledAlphabet.any (fun x => x == c)) = true) →
        HashidsService.decode s = [] ∧ decodeHashId s = none) := by
  constructor
  · intro s
    rw [HashidsService.decode]
    by_cases hall :
        (s.data.all (fun c => shuffledAlphabet.any (fun x => x == c))) = true
    · rw [if_pos hall]
      by_cases henc :
          HashidsService.encode
              (s.data.foldl (fun a c => a * 62 + idxOf c shuffledAlphabet) 0) = s
      · exact Or.inr ⟨_, if_pos henc⟩
      · exact Or.inl (if_neg henc)
    · exact Or.inl (if_neg hall)
  · intro s hbad
    rcases hbad with ⟨c, hc, hnc⟩
    have hall :
        ¬ (s.data.all (fun c => shuffledAlphabet.any (fun x => x == c))) = true := by
      intro h
      exact hnc (List.all_eq_true.mp h c hc)
    have hdec : HashidsService.decode s = [] := by
      rw [HashidsService.decode, if_neg hall]
    exact ⟨hdec, by rw [decodeHashId, hdec]⟩

/-- Witness for C8 at the wrong-alphabet token "!!!abc". -/
theorem C8_decode_total_witness :
    (∃ c ∈ "!!!abc".data, ¬ (shuffledAlphabet.any (fun x => x == c)) = true) ∧
    (HashidsService.decode "!!!abc" = [] ∧ decodeHashId "!!!abc" = none) :=
  ⟨by decide, C8_decode_total.2 "!!!abc" (by decide)⟩

/-! ## Claims about the rate limiter -/

/-- C3: starting from no entry, with limit L ≥ 1 and window W, the
first L calls within the window all return not-limited and the
(L+1)-th call is the first one that returns limited. -/
theorem C3_first_window (L W t₀ : Nat) (ts : List Nat) (hL : 1 ≤ L)
    (hlen : ts.length = L) (hw : ∀ t ∈ ts, t₀ ≤ t ∧ t < t₀ + W) :
    (RateLimitService.run L W (t₀ :: ts) none).1 =
      List.replicate L false ++ [true] := by
  rw [run_cons]
  have hstep : RateLimitService.isRateLimited L W t₀ none =
      (false, some ⟨1, t₀ + W⟩) := rfl
  rw [hstep]
  have hrest := run_exact L W (t₀ + W) ts 1 hL (by omega)
    (fun t ht => (hw t ht).2)
  simp only [hrest]
  have hrepl : List.replicate L false = false :: List.replicate (L - 1) false := by
    conv_lhs => rw [show L = (L - 1) + 1 from by omega]
    rw [List.replicate_succ]
  rw [hrepl, List.cons_append]

/-- Witness for C3 with L = 2, W = 10, calls at 100, 103, 105. -/
theorem C3_first_window_witness :
    1 ≤ 2 ∧ [103, 105].length = 2 ∧
    (∀ t ∈ [103, 105], 100 ≤ t ∧ t < 100 + 10) ∧
    (RateLimitService.run 2 10 (100 :: [103, 105]) none).1 =
      List.replicate 2 false ++ [true] :=
  ⟨by norm_num, rfl, by decide,
    C3_first_window 2 10 100 [103, 105] (by norm_num) rfl (by decide)⟩

/-- C4 counterexample: limit 1, window 10, an entry expired at time
100. The resetting call is admitted, but the next call — the first of
the claim's "next L = 1 calls" — at time 105 inside the new window is
already limited: the run yields [false, true], not [false, false]. -/
theorem C4_counterexample :
    (50 : Nat) ≤ 100 ∧ (105 : Nat) < 100 + 10 ∧
    (RateLimitService.run 1 10 [100, 105] (some ⟨5, 50⟩)).1 = [false, true] ∧
    (RateLimitService.run 1 10 [100, 105] (some ⟨5, 50⟩)).1 ≠ [false, false] := by
  decide

/-- C4 (amended): a call finding no entry or an expired entry stores
count 1 with resetTime now + windowMs and returns not-limited; within
the new window the following L − 1 calls are not-limited and the L-th
call after the reset is the first limited one. -/
theorem C4_reset (L W now : Nat) (st : Option RLEntry) (hL : 1 ≤ L)
    (hst : st = none ∨ ∃ e, st = some e ∧ e.resetTime ≤ now)
    (ts : List Nat) (hlen : ts.length = L)
    (hw : ∀ t ∈ ts, now ≤ t ∧ t < now + W) :
    RateLimitService.isRateLimited L W now st = (false, some ⟨1, now + W⟩) ∧
    (RateLimitService.run L W ts (some ⟨1, now + W⟩)).1 =
      List.replicate (L - 1) false ++ [true] := by
  constructor
  · rcases hst with rfl | ⟨e, rfl, he⟩
    · rfl
    · rw [RateLimitService.isRateLimited, if_pos he]
  · exact run_exact L W (now + W) ts 1 hL (by omega) (fun t ht => (hw t ht).2)

/-- Witness for the amended C4 with L = 2, W = 10, reset at 100 and
follow-up calls at 101 and 105. -/
theorem C4_reset_witness :
    RateLimitService.isRateLimited 2 10 100 none = (false, some ⟨1, 110⟩) ∧
    (RateLimitService.run 2 10 [101, 105] (some ⟨1, 110⟩)).1 =
      List.replicate 1 false ++ [true] :=
  C4_reset 2 10 100 none (by norm_num) (Or.inl rfl) [101, 105] rfl (by decide)

/-- C9: in the sequential per-key model with limit L ≥ 1, over every
sequence of calls the stored count never exceeds L, and every call
that creates or resets the entry stores exactly count 1 and
resetTime now + windowMs. -/
theorem C9_invariant (L W : Nat) (hL : 1 ≤ L) :
    (∀ (ts : List Nat) (e : RLEntry),
        (RateLimitService.run L W ts none).2 = some e → e.count ≤ L) ∧
    (∀ (now : Nat) (st : Option RLEntry),
        (st = none ∨ ∃ e, st = some e ∧ e.resetTime ≤ now) →
        (RateLimitService.isRateLimited L W now st).2 = some ⟨1, now + W⟩) := by
  constructor
  · intro ts e he
    exact run_inv L W hL ts none (fun e h => Option.noConfusion h) e he
  · intro now st hst
    rcases hst with rfl | ⟨e, rfl, he⟩
    · rfl
    · rw [RateLimitService.isRateLimited, if_pos he]

/-- Witness for C9 with L = 2, W = 10 over the calls 0, 1, 2, 5, and a
reset call at time 50 on the expired entry. -/
theorem C9_invariant_witness :
    1 ≤ 2 ∧
    (RateLimitService.run 2 10 [0, 1, 2, 5] none).2 = some ⟨2, 10⟩ ∧
    (⟨2, 10⟩ : RLEntry).count ≤ 2 ∧
    (RateLimitService.isRateLimited 2 10 50 (some ⟨2, 10⟩)).2 = some ⟨1, 60⟩ :=
  ⟨by norm_num, by decide,
    (C9_invariant 2 10 (by norm_num)).1 [0, 1, 2, 5] ⟨2, 10⟩ (by decide),
    (C9_invariant 2 10 (by norm_num)).2 50 (some ⟨2, 10⟩)
      (Or.inr ⟨⟨2, 10⟩, rfl, by norm_num⟩)⟩

/-! ## Claims about the bot heuristics -/

/-- C5 counterexample: the user agent ".NET" is 4 characters long, yet
the endpoint's inline heuristic (`IndexTs.isBot`) classifies it as
not-bot, because its mobile-app allow check runs before the length
check. -/
theorem C5_counterexample :
    (".NET".length < 10) ∧ IndexTs.isBot ".NET" none none = false := by decide

/-- C5 (amended): an empty or shorter-than-10 user agent is always
classified as bot by `BotProtectionService.isBot`, whatever the
referer and headers; for the endpoint's inline `IndexTs.isBot` the
same holds provided the user agent does not match the mobile-app
allow checks that run first. -/
theorem C5_short_ua (ua : String) (referer : Option String)
    (h : ua.length < 10) :
    (∀ hdrs : BotProtectionService.RequestHeaders,
        BotProtectionService.isBot ua referer hdrs = true) ∧
    (∀ hdrs : Option IndexTs.Headers,
        IndexTs.allowedNet ua.data = false →
        (IndexTs.mobileAllowed ua.data && !IndexTs.mobileBotish ua.data) = false →
        IndexTs.isBot ua referer hdrs = true) := by
  constructor
  · intro hdrs
    simp [BotProtectionService.isBot, h]
  · intro hdrs h₁ h₂
    simp [IndexTs.isBot, h₁, Bool.and_assoc, h₂, h]

/-- Witness for the amended C5 at the user agent "short". -/
theorem C5_short_ua_witness :
    ("short".length < 10) ∧
    BotProtectionService.isBot "short" none
      BotProtectionService.RequestHeaders.empty = true ∧
    IndexTs.allowedNet "short".data = false ∧
    (IndexTs.mobileAllowed "short".data && !IndexTs.mobileBotish "short".data)
      = false ∧
    IndexTs.isBot "short" none none = true :=
  ⟨by decide, (C5_short_ua "short" none (by decide)).1 _, by decide, by decide,
    (C5_short_ua "short" none (by decide)).2 none (by decide) (by decide)⟩

/-- C6 counterexample: ".NET/1.0" matches the mobile-app allow list,
yet `BotProtectionService.isBot` classifies it as bot, because the
short-user-agent check precedes the allow check. -/
theorem C6_counterexample :
    BotProtectionService.allowedMobileApp ".NET/1.0".data = true ∧
    BotProtectionService.isBot ".NET/1.0" none
      BotProtectionService.RequestHeaders.empty = true := by decide

/-- C6 (amended): every user agent of length at least 10 that matches
the mobile-app allow list is classified not-bot by
`BotProtectionService.isBot`, regardless of referer and headers — no
later deny-list or header check overrides the allow list; allow-listed
user agents shorter than 10 characters are classified bot instead. -/
theorem C6_allowlisted (ua : String) (referer : Option String)
    (hdrs : BotProtectionService.RequestHeaders)
    (hlen : 10 ≤ ua.length)
    (happ : BotProtectionService.allowedMobileApp ua.data = true) :
    BotProtectionService.isBot ua referer hdrs = false := by
  have hne : ua.isEmpty = false := by
    by_cases he : ua = ""
    · subst he; exact absurd hlen (by decide)
    · exact Bool.eq_false_iff.mpr (fun h => he (((String.isEmpty_iff _).mp h)))
  have hshort : decide (ua.length < 10) = false := by
    simp only [decide_eq_false_iff_not, not_lt]
    exact hlen
  simp [BotProtectionService.isBot, hne, hshort, happ]

/-- Witness for the amended C6 at the user agent ".NET/7.0 HttpClient". -/
theorem C6_allowlisted_witness :
    10 ≤ ".NET/7.0 HttpClient".length ∧
    BotProtectionService.allowedMobileApp ".NET/7.0 HttpClient".data = true ∧
    BotProtectionService.isBot ".NET/7.0 HttpClient" none
      BotProtectionService.RequestHeaders.empty = false :=
  ⟨by decide, by decide,
    C6_allowlisted ".NET/7.0 HttpClient" none
      BotProtectionService.RequestHeaders.empty (by decide) (by decide)⟩

/-- C7 counterexample: the user agent below matches a desktop-browser
signature, accept-language and a sec-fetch header are present and the
referer is empty, yet `BotProtectionService.isBot` answers bot,
because the deny-list pattern "headless" matches before the desktop
validation is reached. -/
theorem C7_counterexample :
    BotProtectionService.isDesktopBrowser
      "Mozilla/5.0 (Windows NT 10.0) Chrome/120.0 headless".data = true ∧
    BotProtectionService.isBot
      "Mozilla/5.0 (Windows NT 10.0) Chrome/120.0 headless" none
      ⟨some "en-US", some "same-origin", none, none⟩ = true := by decide

/-- C7 (amended): for a user agent matching a desktop-browser
signature that also survives the earlier checks (length at least 10,
not allow-listed, no deny-list match, no mobile signature), with
accept-language and at least one sec-fetch header present: an empty
referer yields not-bot, while a well-formed referer whose hostname is
outside the owned-domain allow list yields bot. -/
theorem C7_desktop (ua : String) (hdrs : BotProtectionService.RequestHeaders)
    (hlen : 10 ≤ ua.length)
    (happ : BotProtectionService.allowedMobileApp ua.data = false)
    (hbot : BotProtectionService.botPattern ua.data = false)
    (hmob : BotProtectionService.mobilePattern ua.data = false)
    (hdesk : BotProtectionService.isDesktopBrowser ua.data = true)
    (hal : BotProtectionService.truthy hdrs.acceptLanguage = true)
    (hsf : (BotProtectionService.truthy hdrs.secFetchSite ||
        BotProtectionService.truthy hdrs.secFetchMode ||
        BotProtectionService.truthy hdrs.secFetchDest) = true) :
    BotProtectionService.isBot ua none hdrs = false ∧
    (∀ r h : String, BotProtectionService.parseURL r = some h →
        BotProtectionService.isAllowedReferer h = false →
        BotProtectionService.isBot ua (some r) hdrs = true) := by
  have hne : ua.isEmpty = false := by
    by_cases he : ua = ""
    · subst he; exact absurd hlen (by decide)
    · exact Bool.eq_false_iff.mpr (fun h => he (((String.isEmpty_iff _).mp h)))
  have hshort : decide (ua.length < 10) = false := by
    simp only [decide_eq_false_iff_not, not_lt]
    exact hlen
  constructor
  · simp [BotProtectionService.isBot, hne, hshort, happ, hbot, hmob, hdesk,
      BotProtectionService.validateDesktopBrowser, hal, hsf]
  · intro r h hp hna
    have hrne : r.isEmpty = false := by
      by_cases hre : r = ""
      · subst hre
        have : BotProtectionService.parseURL "" = none := by decide
        rw [this] at hp
        exact Option.noConfusion hp
      · exact Bool.eq_false_iff.mpr (fun hh => hre ((String.isEmpty_iff _).mp hh))
    simp [BotProtectionService.isBot, hne, hshort, happ, hbot, hmob, hdesk,
      BotProtectionService.validateDesktopBrowser, hal, hsf, hrne, hp, hna]

/-- Witness for the amended C7 at a clean desktop user agent and the
external referer https://evil.example/x. -/
theorem C7_desktop_witness :
    BotProtectionService.isDesktopBrowser
      "Mozilla/5.0 (Windows NT 10.0) Chrome/120.0".data = true ∧
    BotProtectionService.parseURL "https://evil.example/x" =
      some "evil.example" ∧
    BotProtectionService.isAllowedReferer "evil.example" = false ∧
    BotProtectionService.isBot "Mozilla/5.0 (Windows NT 10.0) Chrome/120.0"
      none ⟨some "en-US", some "same-origin", none, none⟩ = false ∧
    BotProtectionService.isBot "Mozilla/5.0 (Windows NT 10.0) Chrome/120.0"
      (some "https://evil.example/x")
      ⟨some "en-US", some "same-origin", none, none⟩ = true :=
  ⟨by decide, by decide, by decide,
    (C7_desktop "Mozilla/5.0 (Windows NT 10.0) Chrome/120.0"
      ⟨some "en-US", some "same-origin", none, none⟩ (by decide) (by decide)
      (by decide) (by decide) (by decide) (by decide) (by decide)).1,
    (C7_desktop "Mozilla/5.0 (Windows NT 10.0) Chrome/120.0"
      ⟨some "en-US", some "same-origin", none, none⟩ (by decide) (by decide)
      (by decide) (by decide) (by decide) (by decide) (by decide)).2
      "https://evil.example/x" "evil.example" (by decide) (by decide)⟩

/-! ## Claims about the album endpoint -/

/-- C1 counterexample: the token "ppppppp" passes the format check but
does not decode; with a non-bot user agent and an empty rate table the
endpoint answers invalid-lock-id (HTTP 400), which differs from the
not-found decision used when a decodable token has no record, and with
a bot user agent the same token yields access-denied — so the outcome
is neither NotFound nor independent of the bot signals. -/
theorem C1_counterexample :
    IndexTs.validateHashId "ppppppp" = true ∧
    decodeHashId "ppppppp" = none ∧
    (IndexTs.albumGet "ppppppp" ".NET/7.0 HttpClient" none ⟨"", "", "", ""⟩
        "203.0.113.5" 0 (fun _ => none) (fun _ => true)).1 =
      IndexTs.Decision.invalidLockId ∧
    IndexTs.Decision.invalidLockId ≠ IndexTs.Decision.lockNotFound ∧
    (IndexTs.albumGet "ppppppp" "curl/7.79.1" none ⟨"", "", "", ""⟩
        "203.0.113.5" 0 (fun _ => none) (fun _ => true)).1 =
      IndexTs.Decision.accessDenied := by decide

/-- C1 (amended): a format-valid but undecodable token yields the
invalid-lock-id decision (HTTP 400) — distinct from the not-found
decision given for a decodable token with no record — and only after
the bot and rate checks have passed; a bot-classified or rate-limited
request is answered access-denied or too-many-requests instead. -/
theorem C1_undecodable (hashId ua : String) (referer : Option String)
    (hdrs : IndexTs.Headers) (ip : String) (now : Nat) (m : RLMap)
    (db : Nat → Bool)
    (hfmt : IndexTs.validateHashId hashId = true)
    (hdec : decodeHashId hashId = none)
    (hbot : IndexTs.isBot ua (IndexTs.refOrNull referer) (some hdrs) = false)
    (hrl : (IndexTs.isRateLimited now ip 10 1 m).1 = false) :
    (IndexTs.albumGet hashId ua referer hdrs ip now m db).1 =
      IndexTs.Decision.invalidLockId ∧
    IndexTs.Decision.invalidLockId ≠ IndexTs.Decision.lockNotFound := by
  refine ⟨?_, by simp⟩
  simp [IndexTs.albumGet, hfmt, hbot, hrl, hdec]

/-- Witness for the amended C1 at the concrete undecodable token
"ppppppp". -/
theorem C1_undecodable_witness :
    IndexTs.validateHashId "ppppppp" = true ∧
    decodeHashId "ppppppp" = none ∧
    IndexTs.isBot ".NET/7.0 HttpClient" (IndexTs.refOrNull none)
      (some ⟨"", "", "", ""⟩) = false ∧
    (IndexTs.isRateLimited 0 "203.0.113.5" 10 1 (fun _ => none)).1 = false ∧
    ((IndexTs.albumGet "ppppppp" ".NET/7.0 HttpClient" none ⟨"", "", "", ""⟩
        "203.0.113.5" 0 (fun _ => none) (fun _ => true)).1 =
      IndexTs.Decision.invalidLockId ∧
      IndexTs.Decision.invalidLockId ≠ IndexTs.Decision.lockNotFound) :=
  ⟨by decide, by decide, by decide, by decide,
    C1_undecodable "ppppppp" ".NET/7.0 HttpClient" none ⟨"", "", "", ""⟩
      "203.0.113.5" 0 (fun _ => none) (fun _ => true) (by decide) (by decide)
      (by decide) (by decide)⟩

/-- C10: a token failing the 6–20-alphanumeric format check is
rejected as invalid-format with the rate-limit table unchanged,
whatever the bot signals, rate state and database — the format check
precedes the bot heuristic, the limiter and the codec — and every
token longer than 20 characters fails the check, so an over-long
encoding can never reach the decode step through this endpoint. -/
theorem C10_format_first :
    (∀ (hashId ua : String) (referer : Option String)
        (hdrs : IndexTs.Headers) (ip : String) (now : Nat) (m : RLMap)
        (db : Nat → Bool),
        IndexTs.validateHashId hashId = false →
        IndexTs.albumGet hashId ua referer hdrs ip now m db =
          (IndexTs.Decision.invalidFormat, m)) ∧
    (∀ hashId : String, 20 < hashId.length →
        IndexTs.validateHashId hashId = false) := by
  constructor
  · intro hashId ua referer hdrs ip now m db hfmt
    simp [IndexTs.albumGet, hfmt]
  · intro hashId hlen
    have h20 : decide (hashId.length ≤ 20) = false := by
      simp only [decide_eq_false_iff_not, not_le]
      exact hlen
    rw [IndexTs.validateHashId, h20]
    simp

/-- Witness for C10 at the malformed token "ab!" and the 25-character
token of all a's. -/
theorem C10_format_first_witness :
    IndexTs.validateHashId "ab!" = false ∧
    IndexTs.albumGet "ab!" "curl/7.79.1" none ⟨"", "", "", ""⟩ "203.0.113.5" 0
      (fun _ => none) (fun _ => true) =
      (IndexTs.Decision.invalidFormat, fun _ => none) ∧
    20 < "aaaaaaaaaaaaaaaaaaaaaaaaa".length ∧
    IndexTs.validateHashId "aaaaaaaaaaaaaaaaaaaaaaaaa" = false :=
  ⟨by decide,
    C10_format_first.1 "ab!" "curl/7.79.1" none ⟨"", "", "", ""⟩ "203.0.113.5"
      0 (fun _ => none) (fun _ => true) (by decide),
    by decide,
    C10_format_first.2 "aaaaaaaaaaaaaaaaaaaaaaaaa" (by decide)⟩

end MLW
